import Mathlib

/-!
Verification of the tool-orchestration core of the Agent-with-mcp-service
repository: the intent and argument extractor, the per-conversation history
store, the dispatcher and the aggregated tool catalog
(src/src/agent/gemini-agent.ts, src/src/agent/mcp-client.ts and the
AggregatedMCPClient wrapper of the API server).

Strings are modelled as lists of characters.  The JavaScript regular
expressions used by the extractor are embedded as bespoke matchers that
reproduce the leftmost-match, greedy or lazy with backtracking semantics of
the concrete patterns appearing in the source.  The Google completion
service, the MCP tool backends and the Date library are external
collaborators and are modelled as oracle parameters.
-/

set_option maxRecDepth 4000

abbrev Str := List Char

/-- Model of JavaScript String.prototype.toLowerCase (ASCII fragment). -/
def lowerStr (s : Str) : Str := s.map Char.toLower

/-- Membership in the regex class backslash-s (ASCII fragment). -/
def isWs (c : Char) : Bool :=
  c == ' ' || c == '\t' || c == '\n' || c == '\r' || c == '\x0b' || c == '\x0c'

/-- Model of String.prototype.trim: strip whitespace from both ends. -/
def trimStr (s : Str) : Str :=
  ((s.dropWhile isWs).reverse.dropWhile isWs).reverse

/-- Case-sensitive list-of-characters prefix test. -/
def isPrefixCh : Str → Str → Bool
  | [], _ => true
  | _ :: _, [] => false
  | a :: as, b :: bs => a == b && isPrefixCh as bs

/-- Case-insensitive prefix test, used for the i-flagged regex literals. -/
def isPrefixCI : Str → Str → Bool
  | [], _ => true
  | _ :: _, [] => false
  | a :: as, b :: bs => (a.toLower == b.toLower) && isPrefixCI as bs

/-- Model of String.prototype.includes: substring containment. -/
def includes (n : Str) : Str → Bool
  | [] => n.isEmpty
  | c :: cs => isPrefixCh n (c :: cs) || includes n cs

/-- Leftmost-position scan: try the position matcher on every suffix,
returning the first success, as a JavaScript regex match does. -/
def scanStr (f : Str → Option α) : Str → Option α
  | [] => none
  | c :: cs =>
    match f (c :: cs) with
    | some r => some r
    | none => scanStr f cs

/-- Single quote character (used by the quote-stripping patterns). -/
def squote : Char := Char.ofNat 39

/-- Position matcher for the URL pattern of the web-scraping family:
http, an optional s, colon-slash-slash, then one or more non-space
characters, greedily.  Returns the whole matched span. -/
def matchUrlAt (s : Str) : Option Str :=
  if isPrefixCh ("http".toList) s then
    let r := s.drop 4
    if isPrefixCh ("s://".toList) r then
      let tok := (r.drop 4).takeWhile (fun c => !isWs c)
      if tok.isEmpty then none else some ("https://".toList ++ tok)
    else if isPrefixCh ("://".toList) r then
      let tok := (r.drop 3).takeWhile (fun c => !isWs c)
      if tok.isEmpty then none else some ("http://".toList ++ tok)
    else none
  else none

/-- Model of userPrompt.match of the URL regex of the scraping family. -/
def matchUrl (s : Str) : Option Str := scanStr matchUrlAt s

/-- The token after the email literal matches the shape
nonspace-plus at nonspace-plus exactly when an at-sign occurs strictly
inside it; the capture is then the whole token. -/
def emailShaped (tok : Str) : Bool := ((tok.drop 1).dropLast).contains '@'

/-- Position matcher for the case-insensitive recipient pattern of the
email family: the literal send email to followed by a space, then the
captured address-shaped token. -/
def matchEmailAt (s : Str) : Option Str :=
  let lit := "send email to ".toList
  if isPrefixCI lit s then
    let tok := (s.drop lit.length).takeWhile (fun c => !isWs c)
    if emailShaped tok then some tok else none
  else none

/-- Model of the recipient-extraction match of the email family. -/
def matchEmail (s : Str) : Option Str := scanStr matchEmailAt s

/-- One backtracking step of the lazy capture patterns: after consuming k
characters of the colon-or-whitespace run, try the optional opening quote,
then the lazy one-character-minimum capture, then the optional closing
quote (which always matches empty). -/
def lazyAtK (r : Str) (k : Nat) : Option Str :=
  match r.drop k with
  | [] => none
  | q :: rest =>
    if q == squote || q == '"' then
      match rest with
      | c :: _ => if c == ',' || c == '\n' then some [q] else some [c]
      | [] => some [q]
    else if q == ',' || q == '\n' then none
    else some [q]

/-- Greedy-with-backtracking loop over the length of the separator run for
the lazy capture patterns. -/
def lazyTry (r : Str) : Nat → Option Str
  | 0 => none
  | k + 1 =>
    match lazyAtK r (k + 1) with
    | some cap => some cap
    | none => lazyTry r k

/-- Capture of the lazy patterns (separator run, optional quote, lazy
capture of characters other than comma and newline, optional quote)
applied right after a matched literal. -/
def lazyCapAt (r : Str) : Option Str :=
  let run := r.takeWhile (fun c => c == ':' || isWs c)
  lazyTry r run.length

/-- One backtracking step of the greedy capture patterns: after consuming
k characters of the run, capture greedily every following character other
than comma and newline; the capture must be nonempty. -/
def greedyTry (r : Str) : Nat → Option Str
  | 0 => none
  | k + 1 =>
    let cap := (r.drop (k + 1)).takeWhile (fun c => !(c == ',' || c == '\n'))
    if cap.isEmpty then greedyTry r k else some cap

/-- Capture of the greedy patterns (separator run then a greedy capture of
characters other than comma and newline) applied after a literal. -/
def greedyCapAt (r : Str) : Option Str :=
  let run := r.takeWhile (fun c => c == ':' || isWs c)
  greedyTry r run.length

/-- Leftmost match of a case-insensitive literal followed by a lazy
capture. -/
def matchLazyLit (lit : Str) (s : Str) : Option Str :=
  scanStr (fun suf =>
    if isPrefixCI lit suf then lazyCapAt (suf.drop lit.length) else none) s

/-- Leftmost match of an alternation of two case-insensitive literals
followed by a lazy capture. -/
def matchLazyLit2 (l1 l2 : Str) (s : Str) : Option Str :=
  scanStr (fun suf =>
    match (if isPrefixCI l1 suf then lazyCapAt (suf.drop l1.length) else none) with
    | some cap => some cap
    | none => if isPrefixCI l2 suf then lazyCapAt (suf.drop l2.length) else none) s

/-- Leftmost match of a case-insensitive literal followed by a greedy
capture. -/
def matchGreedyLit (lit : Str) (s : Str) : Option Str :=
  scanStr (fun suf =>
    if isPrefixCI lit suf then greedyCapAt (suf.drop lit.length) else none) s

/-- Leftmost match of an alternation of two case-insensitive literals
followed by a greedy capture. -/
def matchGreedyLit2 (l1 l2 : Str) (s : Str) : Option Str :=
  scanStr (fun suf =>
    match (if isPrefixCI l1 suf then greedyCapAt (suf.drop l1.length) else none) with
    | some cap => some cap
    | none => if isPrefixCI l2 suf then greedyCapAt (suf.drop l2.length) else none) s

/-- Leftmost match of an alternation of three case-insensitive literals
followed by a greedy capture. -/
def matchGreedyLit3 (l1 l2 l3 : Str) (s : Str) : Option Str :=
  scanStr (fun suf =>
    match (if isPrefixCI l1 suf then greedyCapAt (suf.drop l1.length) else none) with
    | some cap => some cap
    | none =>
      match (if isPrefixCI l2 suf then greedyCapAt (suf.drop l2.length) else none) with
      | some cap => some cap
      | none => if isPrefixCI l3 suf then greedyCapAt (suf.drop l3.length) else none) s

/-- Membership in the character class of the phone-number pattern of the
WhatsApp family: digits, whitespace, hyphens and parentheses. -/
def phoneClass (c : Char) : Bool :=
  c.isDigit || isWs c || c == '-' || c == '(' || c == ')'

/-- Position matcher for the phone-number pattern: an optional plus sign
followed by one or more characters of the phone class. -/
def matchPhoneAt (s : Str) : Option Str :=
  match s with
  | [] => none
  | c :: cs =>
    if c == '+' then
      match cs with
      | d :: _ => if phoneClass d then some ('+' :: cs.takeWhile phoneClass) else none
      | [] => none
    else if phoneClass c then some ((c :: cs).takeWhile phoneClass) else none

/-- Model of the phone-number match of the WhatsApp family. -/
def matchPhone (s : Str) : Option Str := scanStr matchPhoneAt s

/-- Model of GeminiAgent.determineExtractionType: pick the extraction type
from fixed keywords of the lowercased prompt, in source order. -/
def determineExtractionType (u : Str) : Option Str :=
  let p := lowerStr u
  if includes ("email".toList) p then some ("emails".toList)
  else if includes ("url".toList) p then some ("urls".toList)
  else if includes ("date".toList) p then some ("dates".toList)
  else if includes ("name".toList) p then some ("names".toList)
  else none

/-- Model of GeminiAgent.extractEmailSubject: subject pattern, then
with-subject pattern, then (under a case-sensitive includes check) the
about-or-regarding pattern, then the literal default. -/
def extractEmailSubject (u : Str) : Str :=
  match matchLazyLit ("subject".toList) u with
  | some cap => trimStr cap
  | none =>
    match matchLazyLit ("with subject".toList) u with
    | some cap => trimStr cap
    | none =>
      if includes ("about".toList) u || includes ("regarding".toList) u then
        match matchLazyLit2 ("about".toList) ("regarding".toList) u with
        | some cap => trimStr cap
        | none => "Message from AI Assistant".toList
      else "Message from AI Assistant".toList

/-- Model of GeminiAgent.extractEmailBody: body, and-body, message, then
saying-or-with-message patterns, then the literal default. -/
def extractEmailBody (u : Str) : Str :=
  match matchLazyLit ("body".toList) u with
  | some cap => trimStr cap
  | none =>
    match matchLazyLit ("and body".toList) u with
    | some cap => trimStr cap
    | none =>
      match matchLazyLit ("message".toList) u with
      | some cap => trimStr cap
      | none =>
        match matchLazyLit2 ("saying".toList) ("with message".toList) u with
        | some cap => trimStr cap
        | none => "This is an automated message sent by your AI assistant.".toList

/-- The literal default message of the WhatsApp family. -/
def waDefaultMsg : Str := "Hello from your AI assistant!".toList

/-- Model of GeminiAgent.extractMessageContent: greedy message pattern,
then greedy saying-or-with pattern, then the literal default. -/
def extractMessageContent (u : Str) : Str :=
  match matchGreedyLit ("message".toList) u with
  | some cap => trimStr cap
  | none =>
    match matchGreedyLit2 ("saying".toList) ("with".toList) u with
    | some cap => trimStr cap
    | none => waDefaultMsg

/-- Model of GeminiAgent.extractEventTitle: greedy event pattern, then
(under a case-sensitive includes check) the meeting-or-appointment
pattern, then the literal default. -/
def extractEventTitle (u : Str) : Str :=
  match matchGreedyLit ("event".toList) u with
  | some cap => trimStr cap
  | none =>
    if includes ("meeting".toList) u || includes ("appointment".toList) u then
      match matchGreedyLit2 ("meeting".toList) ("appointment".toList) u with
      | some cap => trimStr cap
      | none => "AI Assistant Event".toList
    else "AI Assistant Event".toList

/-- Oracle interface for the JavaScript Date library used by the calendar
family.  parse models the getTime of a Date built from a string (none for
an invalid date), now models Date.now, toISO models toISOString of a Date
built from a millisecond timestamp, and addHour models building a Date
from an ISO string, adding one hour and serializing it again.  toISO never
returns the empty string, which the real library guarantees. -/
structure DateModel where
  parse : Str → Option Int
  now : Int
  toISO : Int → Str
  addHour : Str → Str
  toISO_ne : ∀ t, toISO t ≠ []

/-- Model of GeminiAgent.extractEventTime: greedy at-or-on-or-for pattern
whose trimmed capture is parsed as a date, defaulting to one hour from
now. -/
def extractEventTime (dm : DateModel) (u : Str) : Str :=
  match matchGreedyLit3 ("at".toList) ("on".toList) ("for".toList) u with
  | some cap =>
    match dm.parse (trimStr cap) with
    | some ms => dm.toISO ms
    | none => dm.toISO (dm.now + 3600000)
  | none => dm.toISO (dm.now + 3600000)

/-- Strip single and double quotes, then trim, as the email branch cleans
its subject and body. -/
def cleanQuotes (s : Str) : Str :=
  trimStr (s.filter (fun c => !(c == squote || c == '"')))

/-- A tool invocation request: tool name and argument mapping.  Argument
values are strings for every family of the source. -/
structure Invocation where
  name : Str
  args : List (Str × Str)
deriving DecidableEq

/-- The fixed sample content the extraction family passes to the
data-extractor tool. -/
def sampleContent : Str :=
  "Contact us at example@test.com or visit https://example.com for more info.".toList

/-- Web-scraping family of GeminiAgent.executeToolsAndRespond: gated on
scrape or url, requires a URL-shaped match. -/
def scrapeInvs (u : Str) : List Invocation :=
  let p := lowerStr u
  if includes ("scrape".toList) p || includes ("url".toList) p then
    match matchUrl u with
    | some url => [⟨"web_scraper".toList, [("url".toList, url)]⟩]
    | none => []
  else []

/-- Data-extraction family: gated on extract or email, requires a known
extraction type. -/
def extractInvs (u : Str) : List Invocation :=
  let p := lowerStr u
  if includes ("extract".toList) p || includes ("email".toList) p then
    match determineExtractionType u with
    | some ty =>
      [⟨"data_extractor".toList,
        [("content".toList, sampleContent), ("extraction_type".toList, ty)]⟩]
    | none => []
  else []

/-- Email family: gated on send-email or email, requires the recipient
pattern to match and the extracted subject and body to be truthy; the
subject and body arguments are quote-stripped and trimmed. -/
def emailInvs (u : Str) : List Invocation :=
  let p := lowerStr u
  if includes ("send email".toList) p || includes ("email".toList) p then
    match matchEmail u with
    | some addr =>
      let subject := extractEmailSubject u
      let body := extractEmailBody u
      if !subject.isEmpty && !body.isEmpty then
        [⟨"composio_send_email".toList,
          [("to".toList, addr), ("subject".toList, cleanQuotes subject),
           ("body".toList, cleanQuotes body)]⟩]
      else []
    | none => []
  else []

/-- Characters kept by the phone-number cleanup (everything but
whitespace, hyphens and parentheses). -/
def phoneKeep (c : Char) : Bool := !(isWs c || c == '-' || c == '(' || c == ')')

/-- WhatsApp family: gated on whatsapp or send-message, requires the
phone pattern to match and the extracted message to be truthy; the
recipient is a plus sign prepended to the cleaned span. -/
def whatsappInvs (u : Str) : List Invocation :=
  let p := lowerStr u
  if includes ("whatsapp".toList) p || includes ("send message".toList) p then
    match matchPhone u with
    | some span =>
      let msg := extractMessageContent u
      if !msg.isEmpty then
        [⟨"composio_whatsapp_message".toList,
          [("phoneNumber".toList, '+' :: span.filter phoneKeep),
           ("message".toList, msg)]⟩]
      else []
    | none => []
  else []

/-- Calendar family: gated on calendar, schedule or event, requires the
extracted title and start time to be truthy; the end time is the start
time shifted by one hour through the Date oracle. -/
def calendarInvs (dm : DateModel) (u : Str) : List Invocation :=
  let p := lowerStr u
  if includes ("calendar".toList) p || includes ("schedule".toList) p
      || includes ("event".toList) p then
    let title := extractEventTitle u
    let time := extractEventTime dm u
    if !title.isEmpty && !time.isEmpty then
      [⟨"composio_calendar_event".toList,
        [("title".toList, title), ("startTime".toList, time),
         ("endTime".toList, dm.addHour time)]⟩]
    else []
  else []

/-- The ordered invocation list of one turn: the five families of
GeminiAgent.executeToolsAndRespond, evaluated independently on the user
prompt in source order. -/
def buildInvocations (dm : DateModel) (u : Str) : List Invocation :=
  scrapeInvs u ++ extractInvs u ++ emailInvs u ++ whatsappInvs u
    ++ calendarInvs dm u

/-- A trivial concrete instance of the Date oracle, for evaluating the
model on concrete inputs where no calendar family fires or where the
time values are irrelevant. -/
def dmTriv : DateModel where
  parse := fun _ => none
  now := 0
  toISO := fun _ => "1970-01-01T01:00:00.000Z".toList
  addHour := fun s => s
  toISO_ne := by intro t; simp

/-- Message roles of the conversation store. -/
inductive Role where
  | user
  | assistant
  | system
deriving DecidableEq

/-- A conversation message: role and content. -/
structure Message where
  role : Role
  content : Str
deriving DecidableEq

/-- A tool descriptor as seen by the agent: name and description. -/
abbrev ToolDesc := Str × Str

/-- The fixed trigger-keyword list of GeminiAgent.shouldUseTools. -/
def toolKeywords : List Str :=
  ["scrape", "extract", "web", "url", "website", "data",
   "email", "send", "mail", "whatsapp", "slack", "message",
   "calendar", "event", "schedule", "crm", "contact",
   "file", "upload", "database", "query", "webhook"].map String.toList

/-- Model of GeminiAgent.shouldUseTools: some keyword occurs in the
lowercased user prompt or assistant message, and the tool list is
nonempty. -/
def shouldUseTools (tools : List ToolDesc) (assistantMessage u : Str) : Bool :=
  (toolKeywords.any (fun k =>
    includes k (lowerStr u) || includes k (lowerStr assistantMessage)))
  && !tools.isEmpty

/-- The system note appended to the history after a successful tool
execution. -/
def toolNote (name payload : Str) : Message :=
  ⟨Role.system, "Tool ".toList ++ name ++ " result: ".toList ++ payload⟩

/-- The per-invocation execution loop of executeToolsAndRespond: each
invocation runs under its own try-catch; a success appends a pair to the
result list and a system note, a failure only logs and leaves both
untouched, and the loop always continues to the next invocation. -/
def runTools (exec : Invocation → Except Str Str) :
    List Invocation → List (Str × Str) × List Message
  | [] => ([], [])
  | inv :: rest =>
    match exec inv with
    | Except.ok payload =>
      let r := runTools exec rest
      ((inv.name, payload) :: r.1, toolNote inv.name payload :: r.2)
    | Except.error _ => runTools exec rest

/-- Model of GeminiAgent.executeToolsAndRespond: build the invocation
list from the user prompt, execute it, and if any result was collected
ask the completion service to synthesize (the synth oracle receives the
user prompt and the result pairs, standing for the final prompt built
from them).  A synthesis failure is caught by the surrounding try-catch,
which falls back to the interim assistant message; the function never
propagates an error.  Returns the final text and the updated history. -/
def executeToolsAndRespond (dm : DateModel)
    (exec : Invocation → Except Str Str)
    (synth : Str → List (Str × Str) → Except Str Str)
    (u assistantMessage : Str) (history : List Message) :
    Str × List Message :=
  let invs := buildInvocations dm u
  let r := runTools exec invs
  let history1 := history ++ r.2
  if r.1.isEmpty then (assistantMessage, history1)
  else
    match synth u r.1 with
    | Except.ok finalText => (finalText, history1 ++ [⟨Role.assistant, finalText⟩])
    | Except.error _ => (assistantMessage, history1)

/-- The keyed conversation store: conversation id to message sequence. -/
def Store : Type := Str → Option (List Message)

/-- Pointwise update of the store at one conversation id. -/
def updateStore (st : Store) (id : Str) (h : List Message) : Store :=
  fun k => if k = id then some h else st k

/-- The conversation id actually used: the given one unless it is absent
or empty (the JavaScript or-default treats the empty string as falsy). -/
def defaultId (cid : Option Str) : Str :=
  match cid with
  | none => "default".toList
  | some s => if s.isEmpty then "default".toList else s

/-- Model of GeminiAgent.ensureHistory: create the conversation with its
single instructions message if absent; returns the id used and the
updated store. -/
def ensureHistory (instr : Str) (st : Store) (cid : Option Str) : Str × Store :=
  let id := defaultId cid
  match st id with
  | some _ => (id, st)
  | none => (id, updateStore st id [⟨Role.system, instr⟩])

/-- Model of GeminiAgent.getConversationHistory: ensure the conversation
exists, then return a copy of its sequence together with the store. -/
def getConversationHistory (instr : Str) (st : Store) (cid : Option Str) :
    List Message × Store :=
  let p := ensureHistory instr st cid
  ((p.2 p.1).getD [], p.2)

/-- Model of GeminiAgent.clearConversationHistory: replace the sequence
with a single fresh instructions message. -/
def clearConversationHistory (instr : Str) (st : Store) (cid : Option Str) : Store :=
  updateStore st (defaultId cid) [⟨Role.system, instr⟩]

/-- One history append in the style of the source (ensureHistory followed
by a push on the conversation array). -/
def appendMessage (instr : Str) (st : Store) (cid : Option Str) (m : Message) : Store :=
  let p := ensureHistory instr st cid
  updateStore p.2 p.1 ((p.2 p.1).getD [] ++ [m])

/-- Appending a list of messages in order. -/
def appendAll (instr : Str) (st : Store) (cid : Option Str) (ms : List Message) : Store :=
  ms.foldl (fun s m => appendMessage instr s cid m) st

/-- Model of GeminiAgent.processPrompt: push the user message, call the
completion service (the complete oracle receives the user prompt,
standing for the enhanced prompt built from it), push the assistant
reply, and hand over to the tool path when shouldUseTools fires with a
nonempty tool list.  A completion failure here escapes to the caller
after the user message was already appended (no rollback).  Returns the
thrown-or-returned text and the updated store. -/
def processPrompt (dm : DateModel)
    (complete : Str → Except Str Str)
    (exec : Invocation → Except Str Str)
    (synth : Str → List (Str × Str) → Except Str Str)
    (tools : List ToolDesc) (instr : Str) (st : Store)
    (u : Str) (cid : Option Str) : Except Str Str × Store :=
  let p := ensureHistory instr st cid
  let id := p.1
  let st1 := p.2
  let h1 := (st1 id).getD [] ++ [⟨Role.user, u⟩]
  match complete u with
  | Except.error e => (Except.error e, updateStore st1 id h1)
  | Except.ok assistantMessage =>
    let h2 := h1 ++ [⟨Role.assistant, assistantMessage⟩]
    if shouldUseTools tools assistantMessage u && !tools.isEmpty then
      let r := executeToolsAndRespond dm exec synth u assistantMessage h2
      (Except.ok r.1, updateStore st1 id r.2)
    else (Except.ok assistantMessage, updateStore st1 id h2)

/-- The list a backend contributed to the merge: its tool list on
success, the empty list when fetching failed (the per-client catch
replaces a failure by an empty array). -/
def exList (r : Except Str (List α)) : List α :=
  match r with
  | Except.ok l => l
  | Except.error _ => []

namespace AggregatedMCPClient

/-- Model of AggregatedMCPClient.getAvailableTools: concatenate, in
fixed order, the tool lists of the enhanced, firecrawl and composio
clients, each failure contributing an empty list; an absent client
likewise contributes nothing. -/
def getAvailableTools (enhanced firecrawl composio : Except Str (List α)) : List α :=
  exList enhanced ++ exList firecrawl ++ exList composio

end AggregatedMCPClient

/-- Number of catalog entries carrying a given tool name. -/
def countName (l : List ToolDesc) (n : Str) : Nat :=
  l.countP (fun t => t.1 == n)

/-- Concrete utterance of the partial-failure scenario: it yields three
invocations (web scraper, data extractor, email). -/
def uC1 : Str :=
  "scrape https://x.com and extract emails and send email to a@b.com about hi with message yo".toList

/-- Concrete utterance of the email scenario of the spec. -/
def uC4 : Str := "Send email to a@b.com about Test with message Hello".toList

theorem isPrefixCh_nil (n : Str) : isPrefixCh n [] = n.isEmpty := by
  cases n <;> rfl

theorem includes_iff_drop (n h : Str) :
    includes n h = true ↔ ∃ i, isPrefixCh n (h.drop i) = true := by
  induction h with
  | nil =>
    rw [includes]
    constructor
    · intro hn
      exact ⟨0, by rw [List.drop_nil, isPrefixCh_nil]; exact hn⟩
    · rintro ⟨i, hi⟩
      rw [List.drop_nil, isPrefixCh_nil] at hi
      exact hi
  | cons c cs ih =>
    rw [includes, Bool.or_eq_true, ih]
    constructor
    · rintro (hp | ⟨i, hi⟩)
      · exact ⟨0, hp⟩
      · exact ⟨i + 1, hi⟩
    · rintro ⟨i, hi⟩
      cases i with
      | zero => exact Or.inl hi
      | succ j => exact Or.inr ⟨j, hi⟩

theorem prefixCh_append (a b s : Str) (h : isPrefixCh (a ++ b) s = true) :
    isPrefixCh b (s.drop a.length) = true := by
  induction a generalizing s with
  | nil => simpa using h
  | cons x xs ih =>
    cases s with
    | nil => rw [List.cons_append, isPrefixCh] at h; exact absurd h (by simp)
    | cons y ys =>
      rw [List.cons_append, isPrefixCh, Bool.and_eq_true] at h
      simpa using ih ys h.2

theorem prefixCh_of_append (a b s : Str) (h : isPrefixCh (a ++ b) s = true) :
    isPrefixCh a s = true := by
  induction a generalizing s with
  | nil => rfl
  | cons x xs ih =>
    cases s with
    | nil => rw [List.cons_append, isPrefixCh] at h; exact absurd h (by simp)
    | cons y ys =>
      rw [List.cons_append, isPrefixCh, Bool.and_eq_true] at h
      rw [isPrefixCh, Bool.and_eq_true]
      exact ⟨h.1, ih ys h.2⟩

theorem includes_of_append_right (a b h : Str)
    (hi : includes (a ++ b) h = true) : includes b h = true := by
  rcases (includes_iff_drop _ _).1 hi with ⟨i, hp⟩
  refine (includes_iff_drop _ _).2 ⟨i + a.length, ?_⟩
  have h2 := prefixCh_append a b (h.drop i) hp
  rwa [List.drop_drop] at h2

theorem includes_of_append_left (a b h : Str)
    (hi : includes (a ++ b) h = true) : includes a h = true := by
  rcases (includes_iff_drop _ _).1 hi with ⟨i, hp⟩
  exact (includes_iff_drop _ _).2 ⟨i, prefixCh_of_append a b _ hp⟩

theorem isPrefixCI_eq (n : Str) : ∀ h : Str,
    isPrefixCI n h = isPrefixCh (lowerStr n) (lowerStr h) := by
  induction n with
  | nil => intro h; cases h <;> rfl
  | cons a as ih =>
    intro h
    cases h with
    | nil => rfl
    | cons b bs =>
      rw [isPrefixCI, lowerStr, lowerStr, List.map_cons, List.map_cons, isPrefixCh]
      rw [show (List.map Char.toLower as) = lowerStr as from rfl,
          show (List.map Char.toLower bs) = lowerStr bs from rfl, ih bs]

theorem scanStr_some {α : Type} {f : Str → Option α} {s : Str} {a : α}
    (h : scanStr f s = some a) : ∃ i, f (s.drop i) = some a := by
  induction s with
  | nil => rw [scanStr] at h; exact absurd h (by simp)
  | cons c cs ih =>
    rw [scanStr] at h
    cases hf : f (c :: cs) with
    | some r =>
      rw [hf] at h
      exact ⟨0, by rw [List.drop_zero, hf]; exact h⟩
    | none =>
      rw [hf] at h
      rcases ih h with ⟨i, hi⟩
      exact ⟨i + 1, hi⟩

theorem matchEmail_gate {u a : Str} (h : matchEmail u = some a) :
    includes ("send email".toList) (lowerStr u) = true := by
  rcases scanStr_some h with ⟨i, hi⟩
  rw [matchEmailAt] at hi
  by_cases hp : isPrefixCI ("send email to ".toList) (u.drop i) = true
  · have h1 : isPrefixCh (lowerStr ("send email to ".toList)) (lowerStr (u.drop i)) = true := by
      rw [← isPrefixCI_eq]; exact hp
    have hlit : lowerStr ("send email to ".toList)
        = "send email".toList ++ " to ".toList := by decide
    rw [hlit] at h1
    have h2 := prefixCh_of_append _ _ _ h1
    rw [show lowerStr (u.drop i) = (lowerStr u).drop i from List.map_drop Char.toLower u i] at h2
    exact (includes_iff_drop _ _).2 ⟨i, h2⟩
  · rw [if_neg hp] at hi
    exact absurd hi (by simp)

theorem filter_false_nil {α : Type} {l : List α} {p : α → Bool}
    (h : ∀ a ∈ l, p a = false) : l.filter p = [] := by
  induction l with
  | nil => rfl
  | cons x xs ih =>
    rw [List.filter_cons, h x (by simp)]
    exact ih (fun a ha => h a (by simp [ha]))

theorem mem_scrapeInvs_name {u : Str} {i : Invocation} (h : i ∈ scrapeInvs u) :
    i.name = "web_scraper".toList := by
  rw [scrapeInvs] at h
  split at h
  · cases hm : matchUrl u with
    | some url => rw [hm] at h; rcases List.mem_singleton.1 h with rfl; rfl
    | none => rw [hm] at h; exact absurd h (by simp)
  · exact absurd h (by simp)

theorem mem_extractInvs_name {u : Str} {i : Invocation} (h : i ∈ extractInvs u) :
    i.name = "data_extractor".toList := by
  rw [extractInvs] at h
  split at h
  · cases hm : determineExtractionType u with
    | some ty => rw [hm] at h; rcases List.mem_singleton.1 h with rfl; rfl
    | none => rw [hm] at h; exact absurd h (by simp)
  · exact absurd h (by simp)

theorem mem_emailInvs_name {u : Str} {i : Invocation} (h : i ∈ emailInvs u) :
    i.name = "composio_send_email".toList := by
  rw [emailInvs] at h
  split at h
  · cases hm : matchEmail u with
    | some a =>
      rw [hm] at h
      dsimp only at h
      split at h
      · rcases List.mem_singleton.1 h with rfl; rfl
      · exact absurd h (by simp)
    | none => rw [hm] at h; exact absurd h (by simp)
  · exact absurd h (by simp)

theorem mem_whatsappInvs_name {u : Str} {i : Invocation} (h : i ∈ whatsappInvs u) :
    i.name = "composio_whatsapp_message".toList := by
  rw [whatsappInvs] at h
  split at h
  · cases hm : matchPhone u with
    | some s =>
      rw [hm] at h
      dsimp only at h
      split at h
      · rcases List.mem_singleton.1 h with rfl; rfl
      · exact absurd h (by simp)
    | none => rw [hm] at h; exact absurd h (by simp)
  · exact absurd h (by simp)

theorem mem_calendarInvs_name {dm : DateModel} {u : Str} {i : Invocation}
    (h : i ∈ calendarInvs dm u) : i.name = "composio_calendar_event".toList := by
  rw [calendarInvs] at h
  split at h
  · dsimp only at h
    split at h
    · rcases List.mem_singleton.1 h with rfl; rfl
    · exact absurd h (by simp)
  · exact absurd h (by simp)

theorem ne_of_digit {c : Char} (h : c.isDigit = true) (d : Char)
    (hd : d.isDigit = false) : (c == d) = false := by
  cases hq : c == d with
  | false => rfl
  | true =>
    rw [eq_of_beq hq] at h
    rw [h] at hd
    exact absurd hd (by simp)

theorem phoneKeep_of_class {c : Char} (h : phoneClass c = true) :
    phoneKeep c = (c.isDigit || c == '+') := by
  rw [phoneClass] at h
  simp only [Bool.or_eq_true] at h
  rcases h with ((((h | h) | h) | h) | h)
  · rw [phoneKeep, isWs, h]
    rw [ne_of_digit h ' ' (by decide), ne_of_digit h '\t' (by decide),
        ne_of_digit h '\n' (by decide), ne_of_digit h '\r' (by decide),
        ne_of_digit h '\x0b' (by decide), ne_of_digit h '\x0c' (by decide),
        ne_of_digit h '-' (by decide), ne_of_digit h '(' (by decide),
        ne_of_digit h ')' (by decide)]
    rfl
  · rw [isWs] at h
    simp only [Bool.or_eq_true] at h
    rcases h with ((((h | h) | h) | h) | h) | h <;> (rw [eq_of_beq h]; decide)
  · rw [eq_of_beq h]; decide
  · rw [eq_of_beq h]; decide
  · rw [eq_of_beq h]; decide

theorem matchPhone_span {u span : Str} (h : matchPhone u = some span) :
    ∀ c ∈ span, phoneClass c = true ∨ c = '+' := by
  rcases scanStr_some h with ⟨i, hi⟩
  rw [matchPhoneAt.eq_def] at hi
  cases hu : u.drop i with
  | nil => rw [hu] at hi; exact absurd hi (by simp)
  | cons c cs =>
    rw [hu] at hi
    dsimp only at hi
    by_cases hc : (c == '+') = true
    · rw [if_pos hc] at hi
      cases cs with
      | nil => exact absurd hi (by simp)
      | cons d ds =>
        dsimp only at hi
        by_cases hd : phoneClass d = true
        · rw [if_pos hd] at hi
          rcases Option.some.inj hi with rfl
          intro x hx
          rcases List.mem_cons.1 hx with rfl | hx2
          · exact Or.inr rfl
          · exact Or.inl (List.mem_takeWhile_imp hx2)
        · rw [if_neg hd] at hi; exact absurd hi (by simp)
    · rw [if_neg hc] at hi
      by_cases hcc : phoneClass c = true
      · rw [if_pos hcc] at hi
        rcases Option.some.inj hi with rfl
        intro x hx
        exact Or.inl (List.mem_takeWhile_imp hx)
      · rw [if_neg hcc] at hi; exact absurd hi (by simp)

theorem matchPhone_filter {u span : Str} (h : matchPhone u = some span) :
    span.filter phoneKeep = span.filter (fun c => c.isDigit || c == '+') := by
  apply List.filter_congr
  intro c hc
  rcases matchPhone_span h c hc with hcl | hp
  · exact phoneKeep_of_class hcl
  · rw [hp]; decide

theorem matchPhone_exists {u : Str} (h : ∃ c ∈ u, phoneClass c = true) :
    ∃ s, matchPhone u = some s := by
  induction u with
  | nil => simp at h
  | cons c cs ih =>
    cases hma : matchPhoneAt (c :: cs) with
    | some s =>
      exact ⟨s, by rw [matchPhone, scanStr, hma]⟩
    | none =>
      have hcf : phoneClass c = false := by
        cases hcc : phoneClass c with
        | false => rfl
        | true =>
          exfalso
          rw [matchPhoneAt.eq_def] at hma
          dsimp only at hma
          have hplus : (c == '+') = false := by
            cases hq : c == '+' with
            | false => rfl
            | true => rw [eq_of_beq hq] at hcc; exact absurd hcc (by decide)
          rw [hplus] at hma
          simp only [Bool.false_eq_true, if_false] at hma
          rw [if_pos hcc] at hma
          exact absurd hma (by simp)
      rcases h with ⟨d, hd, hdc⟩
      rcases List.mem_cons.1 hd with rfl | hdcs
      · rw [hdc] at hcf; exact absurd hcf (by simp)
      · rcases ih ⟨d, hdcs, hdc⟩ with ⟨s, hs⟩
        refine ⟨s, ?_⟩
        rw [matchPhone, scanStr, hma]
        exact hs

theorem updateStore_same (st : Store) (id : Str) (h : List Message) :
    updateStore st id h id = some h := by
  rw [updateStore]
  simp

theorem ensureHistory_fst (instr : Str) (st : Store) (cid : Option Str) :
    (ensureHistory instr st cid).1 = defaultId cid := by
  rw [ensureHistory]
  cases st (defaultId cid) <;> rfl

theorem appendAll_getD (instr : Str) (cid : Option Str) (ms : List Message) :
    ∀ (st : Store) (h : List Message), st (defaultId cid) = some h →
      appendAll instr st cid ms (defaultId cid) = some (h ++ ms) := by
  induction ms with
  | nil =>
    intro st h hs
    rw [appendAll, List.foldl_nil, List.append_nil]
    exact hs
  | cons m rest ih =>
    intro st h hs
    have he : ensureHistory instr st cid = (defaultId cid, st) := by
      rw [ensureHistory, hs]
    have ham : appendMessage instr st cid m
        = updateStore st (defaultId cid) (h ++ [m]) := by
      rw [appendMessage, he]
      dsimp only
      rw [hs]
      rfl
    have hstep : appendAll instr st cid (m :: rest)
        = appendAll instr (appendMessage instr st cid m) cid rest := rfl
    rw [hstep, ham]
    have := ih (updateStore st (defaultId cid) (h ++ [m])) (h ++ [m])
      (updateStore_same st (defaultId cid) (h ++ [m]))
    rw [this, List.append_assoc, List.singleton_append]

/-- C8: clearing a conversation always leaves exactly the single fresh
instructions message, for any prior history of the id (including an
untouched id), and clearing is idempotent; in particular a clear never
leaves an empty sequence. -/
theorem C8_confirmed (instr : Str) (st : Store) (cid : Option Str) :
    (getConversationHistory instr (clearConversationHistory instr st cid) cid).1
        = [⟨Role.system, instr⟩]
    ∧ clearConversationHistory instr (clearConversationHistory instr st cid) cid
        = clearConversationHistory instr st cid := by
  constructor
  · rw [getConversationHistory]
    have he : ensureHistory instr (clearConversationHistory instr st cid) cid
        = (defaultId cid, clearConversationHistory instr st cid) := by
      rw [ensureHistory, clearConversationHistory, updateStore_same]
    rw [he]
    dsimp only
    rw [clearConversationHistory, updateStore_same]
    rfl
  · funext k
    simp only [clearConversationHistory, updateStore]
    by_cases hk : k = defaultId cid <;> simp [hk]

/-- C9: starting from a conversation id with no prior history, appending
N messages and then taking a snapshot returns exactly the N appended
messages preceded by the initial instructions message, in insertion
order, so N plus one messages in total. -/
theorem C9_confirmed (instr : Str) (st : Store) (cid : Option Str) (ms : List Message)
    (hfresh : st (defaultId cid) = none) :
    (getConversationHistory instr (appendAll instr st cid ms) cid).1
      = ⟨Role.system, instr⟩ :: ms
    ∧ (getConversationHistory instr (appendAll instr st cid ms) cid).1.length
      = ms.length + 1 := by
  have hmain : (getConversationHistory instr (appendAll instr st cid ms) cid).1
      = ⟨Role.system, instr⟩ :: ms := by
    cases ms with
    | nil =>
      rw [appendAll, List.foldl_nil, getConversationHistory]
      have he : ensureHistory instr st cid
          = (defaultId cid, updateStore st (defaultId cid) [⟨Role.system, instr⟩]) := by
        rw [ensureHistory, hfresh]
      rw [he]
      dsimp only
      rw [updateStore_same]
      rfl
    | cons m rest =>
      have hstep : appendAll instr st cid (m :: rest)
          = appendAll instr (appendMessage instr st cid m) cid rest := rfl
      have he : ensureHistory instr st cid
          = (defaultId cid, updateStore st (defaultId cid) [⟨Role.system, instr⟩]) := by
        rw [ensureHistory, hfresh]
      have ham : appendMessage instr st cid m
          = updateStore (updateStore st (defaultId cid) [⟨Role.system, instr⟩])
              (defaultId cid) ([⟨Role.system, instr⟩] ++ [m]) := by
        rw [appendMessage, he]
        dsimp only
        rw [updateStore_same]
        rfl
      have hv : appendMessage instr st cid m (defaultId cid)
          = some ([⟨Role.system, instr⟩] ++ [m]) := by
        rw [ham]
        exact updateStore_same _ _ _
      have hfin : appendAll instr st cid (m :: rest) (defaultId cid)
          = some (([⟨Role.system, instr⟩] ++ [m]) ++ rest) := by
        rw [hstep]
        exact appendAll_getD instr cid rest _ _ hv
      rw [getConversationHistory]
      have he2 : ensureHistory instr (appendAll instr st cid (m :: rest)) cid
          = (defaultId cid, appendAll instr st cid (m :: rest)) := by
        rw [ensureHistory, hfin]
      rw [he2]
      dsimp only
      rw [hfin]
      simp
  exact ⟨hmain, by rw [hmain]; simp⟩

/-- C9 witness: two messages appended to a fresh store snapshot back as
the instructions message followed by the two messages, three in all. -/
theorem C9_confirmed_witness :
    (getConversationHistory ("inst".toList) (appendAll ("inst".toList)
        (fun _ => none) none
        [⟨Role.user, "hello".toList⟩, ⟨Role.assistant, "hi".toList⟩]) none).1
      = [⟨Role.system, "inst".toList⟩, ⟨Role.user, "hello".toList⟩,
         ⟨Role.assistant, "hi".toList⟩]
    ∧ (getConversationHistory ("inst".toList) (appendAll ("inst".toList)
        (fun _ => none) none
        [⟨Role.user, "hello".toList⟩, ⟨Role.assistant, "hi".toList⟩]) none).1.length
      = 2 + 1 := by
  have := C9_confirmed ("inst".toList) (fun _ => none) none
    [⟨Role.user, "hello".toList⟩, ⟨Role.assistant, "hi".toList⟩] rfl
  exact ⟨this.1, this.2⟩

/-- C3 counterexample: two backends each advertising a tool named X
produce two merged catalog entries named X, not one, and the entry of
the first-merged backend comes first; there is no last-merged-wins
deduplication in the merge. -/
theorem C3_counterexample :
    AggregatedMCPClient.getAvailableTools
        (Except.ok [(("X".toList : Str), ("from enhanced".toList : Str))])
        (Except.ok [(("X".toList : Str), ("from firecrawl".toList : Str))])
        (Except.ok ([] : List ToolDesc))
      = [("X".toList, "from enhanced".toList), ("X".toList, "from firecrawl".toList)]
    ∧ countName (AggregatedMCPClient.getAvailableTools
        (Except.ok [(("X".toList : Str), ("from enhanced".toList : Str))])
        (Except.ok [(("X".toList : Str), ("from firecrawl".toList : Str))])
        (Except.ok ([] : List ToolDesc))) ("X".toList) = 2 := by
  exact ⟨rfl, by decide⟩

/-- C3 amended: the merged catalog is the order-preserving concatenation
of the per-backend lists (a failed backend contributing nothing), so a
name advertised by several backends appears once per advertising backend
rather than exactly once. -/
theorem C3_amended (e f c : Except Str (List ToolDesc)) (n : Str) :
    countName (AggregatedMCPClient.getAvailableTools e f c) n
      = countName (exList e) n + countName (exList f) n + countName (exList c) n := by
  rw [AggregatedMCPClient.getAvailableTools, countName, countName, countName, countName]
  rw [List.countP_append, List.countP_append]

/-- C1 counterexample: a turn whose utterance yields three invocations
(web scraper, data extractor, email sender), executed with the data
extractor backend unreachable, collects two results rather than three;
the failed invocation leaves no entry in the result set. -/
theorem C1_counterexample :
    ((runTools
        (fun i => if i.name == "data_extractor".toList
          then Except.error ("unreachable".toList)
          else Except.ok ("ok".toList))
        (buildInvocations dmTriv uC1)).1).map Prod.fst
      = ["web_scraper".toList, "composio_send_email".toList]
    ∧ ((runTools
        (fun i => if i.name == "data_extractor".toList
          then Except.error ("unreachable".toList)
          else Except.ok ("ok".toList))
        (buildInvocations dmTriv uC1)).1).length = 2 := by
  exact ⟨by decide, by decide⟩

/-- C1 amended: a batch of three invocations whose second execution
fails is not failed as a whole: the first and third still execute and
their results (and history notes) are retained in order, but the failed
invocation contributes no result entry, so the batch yields two results
rather than three. -/
theorem C1_amended (exec : Invocation → Except Str Str) (i1 i2 i3 : Invocation)
    (p1 p3 e : Str) (h1 : exec i1 = Except.ok p1) (h2 : exec i2 = Except.error e)
    (h3 : exec i3 = Except.ok p3) :
    runTools exec [i1, i2, i3]
      = ([(i1.name, p1), (i3.name, p3)],
         [toolNote i1.name p1, toolNote i3.name p3]) := by
  rw [runTools, h1]
  rw [runTools, h2]
  rw [runTools, h3]
  rw [runTools]

/-- C1 amended witness: a concrete batch of three invocations with the
second failing yields exactly the first and third results. -/
theorem C1_amended_witness :
    runTools
        (fun i => if i.name == "b".toList
          then Except.error ("down".toList) else Except.ok ("ok".toList))
        [⟨"a".toList, []⟩, ⟨"b".toList, []⟩, ⟨"c".toList, []⟩]
      = ([("a".toList, "ok".toList), ("c".toList, "ok".toList)],
         [toolNote ("a".toList) ("ok".toList), toolNote ("c".toList) ("ok".toList)]) := by
  exact C1_amended
    (fun i => if i.name == "b".toList
      then Except.error ("down".toList) else Except.ok ("ok".toList))
    ⟨"a".toList, []⟩ ⟨"b".toList, []⟩ ⟨"c".toList, []⟩
    ("ok".toList) ("ok".toList) ("down".toList) rfl rfl rfl

/-- C2 counterexample: a turn whose initial completion succeeds, whose
tools execute with results, and whose synthesis completion fails does
not propagate the failure: processPrompt returns the interim assistant
message instead of an error. -/
theorem C2_counterexample :
    (processPrompt dmTriv (fun _ => Except.ok ("interim".toList))
        (fun _ => Except.ok ("r".toList))
        (fun _ _ => Except.error ("synthfail".toList))
        [("t".toList, "d".toList)] ("inst".toList) (fun _ => none)
        ("send email to a@b.com hello".toList) none).1
      = Except.ok ("interim".toList) := by
  rfl

/-- C2 amended: a completion-service failure on the initial reply is
propagated to the caller of processPrompt as a hard failure, with the
user message retained in the history (no rollback); a completion-service
failure on the synthesis step after successful tool results is not
propagated: the turn returns the interim assistant message, and the
history retains the user message, the assistant message and the tool
notes appended before the failure. -/
theorem C2_amended (dm : DateModel) (cbad cgood : Str → Except Str Str)
    (exec : Invocation → Except Str Str)
    (synthBad : Str → List (Str × Str) → Except Str Str)
    (tools : List ToolDesc) (instr : Str) (st : Store) (u : Str) (cid : Option Str)
    (e m e2 : Str)
    (hbad : cbad u = Except.error e)
    (hgood : cgood u = Except.ok m)
    (hsynth : ∀ rs, synthBad u rs = Except.error e2)
    (htools : shouldUseTools tools m u = true)
    (hres : ((runTools exec (buildInvocations dm u)).1).isEmpty = false) :
    (processPrompt dm cbad exec synthBad tools instr st u cid).1 = Except.error e
    ∧ (processPrompt dm cbad exec synthBad tools instr st u cid).2 (defaultId cid)
        = some ((((ensureHistory instr st cid).2) (defaultId cid)).getD []
            ++ [⟨Role.user, u⟩])
    ∧ (processPrompt dm cgood exec synthBad tools instr st u cid).1 = Except.ok m
    ∧ (processPrompt dm cgood exec synthBad tools instr st u cid).2 (defaultId cid)
        = some (((((ensureHistory instr st cid).2) (defaultId cid)).getD []
            ++ [⟨Role.user, u⟩, ⟨Role.assistant, m⟩])
            ++ (runTools exec (buildInvocations dm u)).2) := by
  have hid := ensureHistory_fst instr st cid
  have htt : (shouldUseTools tools m u && !tools.isEmpty) = true := by
    have h2 := htools
    rw [shouldUseTools] at h2
    simp only [Bool.and_eq_true] at h2
    rw [htools]
    simp [h2.2]
  have hexe : executeToolsAndRespond dm exec synthBad u m
      ((((ensureHistory instr st cid).2) (defaultId cid)).getD []
        ++ [⟨Role.user, u⟩] ++ [⟨Role.assistant, m⟩])
      = (m, (((ensureHistory instr st cid).2) (defaultId cid)).getD []
            ++ [⟨Role.user, u⟩] ++ [⟨Role.assistant, m⟩]
            ++ (runTools exec (buildInvocations dm u)).2) := by
    rw [executeToolsAndRespond]
    rw [hres, hsynth]
    rfl
  refine ⟨?_, ?_, ?_, ?_⟩
  · rw [processPrompt, hbad]
  · rw [processPrompt, hbad]
    dsimp only
    rw [hid, updateStore_same]
  · rw [processPrompt, hgood]
    dsimp only
    rw [if_pos htt, hid, hexe]
  · rw [processPrompt, hgood]
    dsimp only
    rw [if_pos htt, hid, hexe]
    dsimp only
    rw [updateStore_same]
    simp [List.append_assoc]

/-- C2 amended witness: at a concrete turn, a failing initial completion
surfaces as an error while a failing synthesis step surfaces as the
interim assistant message. -/
theorem C2_amended_witness :
    (processPrompt dmTriv (fun _ => Except.error ("boom".toList))
        (fun _ => Except.ok ("r".toList))
        (fun _ _ => Except.error ("synthfail".toList))
        [("t".toList, "d".toList)] ("inst".toList) (fun _ => none)
        ("send email to a@b.com hello".toList) none).1
      = Except.error ("boom".toList)
    ∧ (processPrompt dmTriv (fun _ => Except.ok ("interim".toList))
        (fun _ => Except.ok ("r".toList))
        (fun _ _ => Except.error ("synthfail".toList))
        [("t".toList, "d".toList)] ("inst".toList) (fun _ => none)
        ("send email to a@b.com hello".toList) none).1
      = Except.ok ("interim".toList) := by
  have h := C2_amended dmTriv (fun _ => Except.error ("boom".toList))
    (fun _ => Except.ok ("interim".toList))
    (fun _ => Except.ok ("r".toList))
    (fun _ _ => Except.error ("synthfail".toList))
    [("t".toList, "d".toList)] ("inst".toList) (fun _ => none)
    ("send email to a@b.com hello".toList) none
    ("boom".toList) ("interim".toList) ("synthfail".toList)
    rfl rfl (fun _ => rfl) (by decide) (by decide)
  exact ⟨h.1, h.2.2.1⟩

/-- C4 counterexample: the scenario utterance produces two invocations,
not exactly one, and neither invocation is named send underscore email. -/
theorem C4_counterexample :
    (buildInvocations dmTriv uC4).length = 2
    ∧ ∀ i ∈ buildInvocations dmTriv uC4, i.name ≠ "send_email".toList := by
  exact ⟨by decide, by decide⟩

/-- C4 amended: the scenario utterance yields two invocations: the email
keyword also gates the extraction family, producing a data-extractor
call on the fixed sample content, and the email invocation is named
composio send email with subject T and body H, the lazy capture groups
of the subject and body patterns matching a single character. -/
theorem C4_amended (dm : DateModel) :
    buildInvocations dm uC4
      = [⟨"data_extractor".toList,
          [("content".toList, sampleContent),
           ("extraction_type".toList, "emails".toList)]⟩,
         ⟨"composio_send_email".toList,
          [("to".toList, "a@b.com".toList), ("subject".toList, "T".toList),
           ("body".toList, "H".toList)]⟩] := by
  have hcal : calendarInvs dm uC4 = [] := by
    rw [calendarInvs]
    rw [if_neg]
    intro hc
    exact absurd hc (by decide)
  rw [buildInvocations, hcal]
  decide

/-- C6 counterexample: an utterance that gates the scraping family but
fails its URL rule produces no invocation at all instead of one built
from defaults. -/
theorem C6_counterexample :
    includes ("scrape".toList) (lowerStr ("scrape the page".toList)) = true
    ∧ matchUrl ("scrape the page".toList) = none
    ∧ buildInvocations dmTriv ("scrape the page".toList) = [] := by
  exact ⟨by decide, by decide, by decide⟩

/-- C6 amended: only the calendar family survives the failure of all its
structural rules, emitting an invocation built from the literal title
default and the one-hour-from-now time default; the scraping,
extraction, email and WhatsApp families abandon the invocation when
their primary structural rule fails. -/
theorem C6_amended (dm : DateModel) (u : Str)
    (hgate : (includes ("calendar".toList) (lowerStr u)
        || includes ("schedule".toList) (lowerStr u)
        || includes ("event".toList) (lowerStr u)) = true)
    (hev : matchGreedyLit ("event".toList) u = none)
    (hmeet : includes ("meeting".toList) u = false)
    (happt : includes ("appointment".toList) u = false)
    (htime : matchGreedyLit3 ("at".toList) ("on".toList) ("for".toList) u = none) :
    calendarInvs dm u
      = [⟨"composio_calendar_event".toList,
          [("title".toList, "AI Assistant Event".toList),
           ("startTime".toList, dm.toISO (dm.now + 3600000)),
           ("endTime".toList, dm.addHour (dm.toISO (dm.now + 3600000)))]⟩]
    ∧ (matchUrl u = none → scrapeInvs u = [])
    ∧ (determineExtractionType u = none → extractInvs u = [])
    ∧ (matchEmail u = none → emailInvs u = [])
    ∧ (matchPhone u = none → whatsappInvs u = []) := by
  have htitle : extractEventTitle u = "AI Assistant Event".toList := by
    rw [extractEventTitle, hev, hmeet, happt]
    rfl
  have htm : extractEventTime dm u = dm.toISO (dm.now + 3600000) := by
    rw [extractEventTime, htime]
  have htiso : (dm.toISO (dm.now + 3600000)).isEmpty = false := by
    cases hiso : (dm.toISO (dm.now + 3600000)).isEmpty with
    | false => rfl
    | true => exact absurd (List.isEmpty_iff.mp hiso) (dm.toISO_ne _)
  refine ⟨?_, ?_, ?_, ?_, ?_⟩
  · rw [calendarInvs, if_pos hgate]
    dsimp only
    rw [htitle, htm, htiso]
    rfl
  · intro hurl
    rw [scrapeInvs]
    split
    · rw [hurl]
    · rfl
  · intro hty
    rw [extractInvs]
    split
    · rw [hty]
    · rfl
  · intro hem
    rw [emailInvs]
    split
    · rw [hem]
    · rfl
  · intro hph
    rw [whatsappInvs]
    split
    · rw [hph]
    · rfl

/-- C6 amended witness: the utterance schedule gates the calendar family,
fails every structural rule, and still yields the default-built calendar
invocation. -/
theorem C6_amended_witness :
    calendarInvs dmTriv ("schedule".toList)
      = [⟨"composio_calendar_event".toList,
          [("title".toList, "AI Assistant Event".toList),
           ("startTime".toList, dmTriv.toISO (dmTriv.now + 3600000)),
           ("endTime".toList, dmTriv.addHour (dmTriv.toISO (dmTriv.now + 3600000)))]⟩] := by
  exact (C6_amended dmTriv ("schedule".toList) (by decide) (by decide) (by decide)
    (by decide) (by decide)).1

/-- C7: an utterance containing none of the fixed trigger keywords
yields an empty invocation list, no tool executes, and the turn returns
the plain completion output with only the user and assistant messages
appended to the history. -/
theorem C7_confirmed (dm : DateModel) (complete : Str → Except Str Str)
    (exec : Invocation → Except Str Str)
    (synth : Str → List (Str × Str) → Except Str Str)
    (tools : List ToolDesc) (instr : Str) (st : Store) (u : Str)
    (cid : Option Str) (m : Str)
    (hkw : ∀ k ∈ toolKeywords, includes k (lowerStr u) = false)
    (hc : complete u = Except.ok m) :
    buildInvocations dm u = []
    ∧ (processPrompt dm complete exec synth tools instr st u cid).1 = Except.ok m
    ∧ (processPrompt dm complete exec synth tools instr st u cid).2 (defaultId cid)
        = some ((((ensureHistory instr st cid).2) (defaultId cid)).getD []
            ++ [⟨Role.user, u⟩, ⟨Role.assistant, m⟩]) := by
  have hscrape := hkw ("scrape".toList) (by decide)
  have hurl := hkw ("url".toList) (by decide)
  have hextract := hkw ("extract".toList) (by decide)
  have hemail := hkw ("email".toList) (by decide)
  have hwa := hkw ("whatsapp".toList) (by decide)
  have hmsg := hkw ("message".toList) (by decide)
  have hcal := hkw ("calendar".toList) (by decide)
  have hsched := hkw ("schedule".toList) (by decide)
  have hevent := hkw ("event".toList) (by decide)
  have hse : includes ("send email".toList) (lowerStr u) = false := by
    cases hb : includes ("send email".toList) (lowerStr u) with
    | false => rfl
    | true =>
      have h3 : ("send email".toList : Str) = "send ".toList ++ "email".toList := by decide
      rw [h3] at hb
      have h2 := includes_of_append_right _ _ _ hb
      rw [h2] at hemail
      exact absurd hemail (by simp)
  have hsm : includes ("send message".toList) (lowerStr u) = false := by
    cases hb : includes ("send message".toList) (lowerStr u) with
    | false => rfl
    | true =>
      have h3 : ("send message".toList : Str) = "send ".toList ++ "message".toList := by decide
      rw [h3] at hb
      have h2 := includes_of_append_right _ _ _ hb
      rw [h2] at hmsg
      exact absurd hmsg (by simp)
  have hbi : buildInvocations dm u = [] := by
    rw [buildInvocations, scrapeInvs, extractInvs, emailInvs, whatsappInvs, calendarInvs]
    dsimp only
    rw [hscrape, hurl, hextract, hemail, hse, hwa, hsm, hcal, hsched, hevent]
    rfl
  have hrest : ∀ hist, executeToolsAndRespond dm exec synth u m hist = (m, hist) := by
    intro hist
    rw [executeToolsAndRespond, hbi]
    simp [runTools]
  have hid := ensureHistory_fst instr st cid
  refine ⟨hbi, ?_, ?_⟩
  · rw [processPrompt, hc]
    dsimp only
    cases htu : (shouldUseTools tools m u && !tools.isEmpty) with
    | true =>
      rw [if_pos rfl, hrest]
    | false =>
      rw [if_neg (fun h => Bool.noConfusion h)]
  · rw [processPrompt, hc]
    dsimp only
    cases htu : (shouldUseTools tools m u && !tools.isEmpty) with
    | true =>
      rw [if_pos rfl, hrest]
      dsimp only
      rw [hid, updateStore_same]
      simp [List.append_assoc]
    | false =>
      rw [if_neg (fun h => Bool.noConfusion h)]
      dsimp only
      rw [hid, updateStore_same]
      simp [List.append_assoc]

/-- C7 witness: the capital-of-France utterance carries no trigger
keyword; the turn returns the plain completion output with an empty
invocation list. -/
theorem C7_confirmed_witness :
    buildInvocations dmTriv ("What is the capital of France?".toList) = []
    ∧ (processPrompt dmTriv (fun _ => Except.ok ("Paris".toList))
        (fun _ => Except.ok ("r".toList))
        (fun _ _ => Except.error ("s".toList))
        [("t".toList, "d".toList)] ("inst".toList) (fun _ => none)
        ("What is the capital of France?".toList) none).1
      = Except.ok ("Paris".toList) := by
  have h := C7_confirmed dmTriv (fun _ => Except.ok ("Paris".toList))
    (fun _ => Except.ok ("r".toList))
    (fun _ _ => Except.error ("s".toList))
    [("t".toList, "d".toList)] ("inst".toList) (fun _ => none)
    ("What is the capital of France?".toList) none ("Paris".toList)
    (by decide) rfl
  exact ⟨h.1, h.2.1⟩

/-- C5 counterexample: an utterance with the email trigger and an
address-shaped token that does not match the send-email-to pattern
yields no email-family invocation at all. -/
theorem C5_counterexample :
    includes ("email".toList) (lowerStr ("email a@b.com".toList)) = true
    ∧ emailShaped ("a@b.com".toList) = true
    ∧ (buildInvocations dmTriv ("email a@b.com".toList)).filter
        (fun i => i.name == "composio_send_email".toList) = [] := by
  exact ⟨by decide, by decide, by decide⟩

/-- C5 amended: whenever the send-email-to recipient pattern matches
with token addr and the extracted subject and body are truthy, the
Extractor emits exactly one email-family invocation, and its recipient
argument is exactly the matched token. -/
theorem C5_amended (dm : DateModel) (u addr : Str)
    (hm : matchEmail u = some addr)
    (hs : (extractEmailSubject u).isEmpty = false)
    (hb : (extractEmailBody u).isEmpty = false) :
    (buildInvocations dm u).filter
        (fun i => i.name == "composio_send_email".toList)
      = [⟨"composio_send_email".toList,
          [("to".toList, addr),
           ("subject".toList, cleanQuotes (extractEmailSubject u)),
           ("body".toList, cleanQuotes (extractEmailBody u))]⟩] := by
  have hgate := matchEmail_gate hm
  have hor : (includes ("send email".toList) (lowerStr u)
      || includes ("email".toList) (lowerStr u)) = true := by
    rw [hgate]
    rfl
  have hei : emailInvs u
      = [⟨"composio_send_email".toList,
          [("to".toList, addr),
           ("subject".toList, cleanQuotes (extractEmailSubject u)),
           ("body".toList, cleanQuotes (extractEmailBody u))]⟩] := by
    rw [emailInvs]
    dsimp only
    rw [if_pos hor, hm]
    dsimp only
    rw [hs, hb]
    rfl
  have hfs : (scrapeInvs u).filter
      (fun i => i.name == "composio_send_email".toList) = [] :=
    filter_false_nil (fun i hi => by rw [mem_scrapeInvs_name hi]; decide)
  have hfe : (extractInvs u).filter
      (fun i => i.name == "composio_send_email".toList) = [] :=
    filter_false_nil (fun i hi => by rw [mem_extractInvs_name hi]; decide)
  have hfw : (whatsappInvs u).filter
      (fun i => i.name == "composio_send_email".toList) = [] :=
    filter_false_nil (fun i hi => by rw [mem_whatsappInvs_name hi]; decide)
  have hfc : (calendarInvs dm u).filter
      (fun i => i.name == "composio_send_email".toList) = [] :=
    filter_false_nil (fun i hi => by rw [mem_calendarInvs_name hi]; decide)
  rw [buildInvocations, hei]
  rw [List.filter_append, List.filter_append, List.filter_append, List.filter_append]
  rw [hfs, hfe, hfw, hfc]
  simp

/-- C5 amended witness: a concrete utterance matching the recipient
pattern yields exactly one email invocation addressed to the matched
token, with the default subject and body. -/
theorem C5_amended_witness :
    (buildInvocations dmTriv ("send email to x@y.z".toList)).filter
        (fun i => i.name == "composio_send_email".toList)
      = [⟨"composio_send_email".toList,
          [("to".toList, "x@y.z".toList),
           ("subject".toList, "Message from AI Assistant".toList),
           ("body".toList,
            "This is an automated message sent by your AI assistant.".toList)]⟩] := by
  exact C5_amended dmTriv ("send email to x@y.z".toList) ("x@y.z".toList)
    (by decide) (by decide) (by decide)

/-- C10 counterexample: the utterance send message saying hi gates the
WhatsApp family, its phone span is a single space so the recipient
degenerates to a bare plus sign, but its message argument is the
extracted saying-content, not the fixed default the claim states. -/
theorem C10_counterexample :
    whatsappInvs ("send message saying hi".toList)
      = [⟨"composio_whatsapp_message".toList,
          [("phoneNumber".toList, "+".toList),
           ("message".toList, "saying hi".toList)]⟩]
    ∧ ("saying hi".toList : Str) ≠ waDefaultMsg := by
  exact ⟨by decide, by decide⟩

/-- C10 amended: on a gated utterance whose phone pattern matches with a
truthy extracted message, the WhatsApp invocation is always produced;
its recipient is a plus sign followed by exactly the digits and plus
signs of the span, degenerating to the bare plus sign when the span has
neither; and the phone pattern matches whenever the utterance contains
any character of the digits-whitespace-hyphen-parenthesis class, so the
message argument equals the extracted content, which falls back to the
fixed default only when no message pattern matches. -/
theorem C10_amended (u u2 span : Str)
    (hgate : (includes ("whatsapp".toList) (lowerStr u)
        || includes ("send message".toList) (lowerStr u)) = true)
    (hspan : matchPhone u = some span)
    (hmsg : (extractMessageContent u).isEmpty = false)
    (hcls : ∃ c ∈ u2, phoneClass c = true) :
    whatsappInvs u
      = [⟨"composio_whatsapp_message".toList,
          [("phoneNumber".toList, '+' :: span.filter (fun c => c.isDigit || c == '+')),
           ("message".toList, extractMessageContent u)]⟩]
    ∧ ((∀ c ∈ span, c.isDigit = false ∧ (c == '+') = false) →
        '+' :: span.filter (fun c => c.isDigit || c == '+') = ['+'])
    ∧ matchPhone u2 ≠ none := by
  refine ⟨?_, ?_, ?_⟩
  · rw [whatsappInvs]
    dsimp only
    rw [if_pos hgate, hspan]
    dsimp only
    rw [hmsg]
    rw [show span.filter phoneKeep
        = span.filter (fun c => c.isDigit || c == '+') from matchPhone_filter hspan]
    rfl
  · intro hall
    have hnil : span.filter (fun c => c.isDigit || c == '+') = [] :=
      filter_false_nil (fun c hc => by rw [(hall c hc).1, (hall c hc).2]; rfl)
    rw [hnil]
  · rcases matchPhone_exists hcls with ⟨s, hs⟩
    rw [hs]
    exact fun h => Option.noConfusion h

/-- C10 amended witness: the concrete gated utterance with a space-only
phone span produces the invocation with the bare-plus recipient and the
extracted message, and an utterance containing a digit always matches
the phone pattern. -/
theorem C10_amended_witness :
    whatsappInvs ("send message saying hi".toList)
      = [⟨"composio_whatsapp_message".toList,
          [("phoneNumber".toList,
            '+' :: ([' '] : Str).filter (fun c => c.isDigit || c == '+')),
           ("message".toList,
            extractMessageContent ("send message saying hi".toList))]⟩]
    ∧ matchPhone ("whatsapp 5".toList) ≠ none := by
  have h := C10_amended ("send message saying hi".toList) ("whatsapp 5".toList)
    ([' '] : Str) (by decide) (by decide) (by decide) (by decide)
  exact ⟨h.1, h.2.2⟩
